import Mathlib

/-!
Verification of the mojibake repair engine in `mojibake_fixer.py`.

A Python string is modelled as the list of its Unicode code points
(`PyStr`).  The two legacy code pages used by the engine are modelled
byte-for-byte after the behaviour of Python's codecs:

* `latin-1` encoding is the identity on code points `0x00`–`0xFF` and
  raises `UnicodeEncodeError` on anything larger;
* `cp1252` encoding maps `0x00`–`0x7F` and `0xA0`–`0xFF` to themselves and
  the 27 extra printable characters to bytes `0x80`–`0x9F`; with
  `errors="replace"` every unencodable code point becomes the byte `0x3F`
  (an ASCII question mark);
* `big5` decoding consumes one byte below `0x80` as an ASCII character and
  otherwise consumes a two-byte pair looked up in the double-byte table;
  in strict mode any unmapped position raises `UnicodeDecodeError`, in
  `errors="replace"` mode it yields `U+FFFD` and resumes at the next byte.

The Big5 double-byte table is represented by `big5Pair`; it is a finite
fragment of the codec table containing exactly the pairs needed by the
concrete strings analysed in this file (every mapped pair of the real
table decodes to a single code point at or above `0x80`, which is the
only structural fact the general theorems rely on).
-/

/-- A Python string: the list of its Unicode code points. -/
abbrev PyStr := List Nat

/-- The two exception classes caught by the engine's handlers
(`except (UnicodeEncodeError, UnicodeDecodeError)`). -/
inductive CodecError where
  | unicodeEncodeError
  | unicodeDecodeError
deriving DecidableEq, Repr

/-- Strict `text.encode("latin-1")`: each code point is its own byte;
a code point above `0xFF` raises `UnicodeEncodeError`. -/
def latin1Encode (s : PyStr) : Except CodecError (List Nat) :=
  if s.all (fun cp => decide (cp ≤ 0xFF)) then .ok s
  else .error .unicodeEncodeError

/-- The cp1252 encoding of a single code point, `none` when the code point
has no Windows-1252 mapping.  Bytes `0x00`–`0x7F` and `0xA0`–`0xFF`
represent themselves; the 27 extra characters occupy `0x80`–`0x9F`
(bytes `0x81`, `0x8D`, `0x8F`, `0x90`, `0x9D` are unassigned). -/
def cp1252EncodeChar (cp : Nat) : Option Nat :=
  if cp < 0x80 then some cp
  else if 0xA0 ≤ cp ∧ cp ≤ 0xFF then some cp
  else
    match cp with
    | 0x20AC => some 0x80
    | 0x201A => some 0x82
    | 0x0192 => some 0x83
    | 0x201E => some 0x84
    | 0x2026 => some 0x85
    | 0x2020 => some 0x86
    | 0x2021 => some 0x87
    | 0x02C6 => some 0x88
    | 0x2030 => some 0x89
    | 0x0160 => some 0x8A
    | 0x2039 => some 0x8B
    | 0x0152 => some 0x8C
    | 0x017D => some 0x8E
    | 0x2018 => some 0x91
    | 0x2019 => some 0x92
    | 0x201C => some 0x93
    | 0x201D => some 0x94
    | 0x2022 => some 0x95
    | 0x2013 => some 0x96
    | 0x2014 => some 0x97
    | 0x02DC => some 0x98
    | 0x2122 => some 0x99
    | 0x0161 => some 0x9A
    | 0x203A => some 0x9B
    | 0x0153 => some 0x9C
    | 0x017E => some 0x9E
    | 0x0178 => some 0x9F
    | _ => none

/-- The `text.encode("cp1252", errors="replace")` call: every unencodable
code point is replaced by the byte `0x3F` (Python's replacement for
encoding errors is the question mark, one byte per failed character). -/
def cp1252EncodeReplace (s : PyStr) : List Nat :=
  s.map (fun cp => (cp1252EncodeChar cp).getD 0x3F)

/-- Fragment of the Big5 double-byte table (lead byte, trail byte ↦ code
point) covering the concrete strings analysed in this development; pairs
outside the fragment are treated as unmapped.  Every general theorem
below depends only on two structural facts true of the full codec table:
a mapped pair consumes two bytes and produces one code point, and that
code point is at least `0x80`. -/
def big5Pair (lead trail : Nat) : Option Nat :=
  match lead, trail with
  | 0xB5, 0x4C => some 0x7121  -- 無
  | 0xB3, 0x79 => some 0x9020  -- 造
  | 0xBC, 0x76 => some 0x5F71  -- 影
  | 0xBE, 0xAF => some 0x5291  -- 劑
  | _, _ => none

/-- Strict `raw_bytes.decode("big5")`: a byte below `0x80` stands alone,
any other byte must begin a mapped two-byte pair, otherwise
`UnicodeDecodeError` is raised. -/
def big5DecodeStrict : List Nat → Except CodecError PyStr
  | [] => .ok []
  | [b] => if b < 0x80 then .ok [b] else .error .unicodeDecodeError
  | b :: t :: rest =>
    if b < 0x80 then
      match big5DecodeStrict (t :: rest) with
      | .ok out => .ok (b :: out)
      | .error e => .error e
    else
      match big5Pair b t with
      | some cp =>
        match big5DecodeStrict rest with
        | .ok out => .ok (cp :: out)
        | .error e => .error e
      | none => .error .unicodeDecodeError

/-- Lenient `raw_bytes.decode("big5", errors="replace")`: where the strict
decoder would raise, a single `U+FFFD` is emitted and decoding resumes at
the next byte. -/
def big5DecodeReplace : List Nat → PyStr
  | [] => []
  | [b] => if b < 0x80 then [b] else [0xFFFD]
  | b :: t :: rest =>
    if b < 0x80 then b :: big5DecodeReplace (t :: rest)
    else
      match big5Pair b t with
      | some cp => cp :: big5DecodeReplace rest
      | none => 0xFFFD :: big5DecodeReplace (t :: rest)

/-- One step of the classifying loop of `_looks_like_valid_cjk`: the
accumulator is the pair `(cjk_count, garbage_count)` and the `if`/`elif`
chain mirrors the Python source. -/
def cjkGarbageStep (acc : Nat × Nat) (cp : Nat) : Nat × Nat :=
  if 0x4E00 ≤ cp ∧ cp ≤ 0x9FFF then (acc.1 + 1, acc.2)
  else if 0x3400 ≤ cp ∧ cp ≤ 0x4DBF then (acc.1 + 1, acc.2)
  else if 0x3000 ≤ cp ∧ cp ≤ 0x303F then (acc.1 + 1, acc.2)
  else if 0xFF00 ≤ cp ∧ cp ≤ 0xFFEF then (acc.1 + 1, acc.2)
  else if cp = 0xFFFD then (acc.1, acc.2 + 1)
  else if 128 ≤ cp ∧ cp < 256 then (acc.1, acc.2 + 1)
  else acc

/-- The validity heuristic `_looks_like_valid_cjk`.  The Python source
compares `garbage_count <= len(text) * 0.3` with IEEE-754 doubles; that
comparison coincides with the exact rational comparison
`garbage_count * 10 ≤ len(text) * 3` for every length below `2 ^ 51`
(the float error of the product never reaches the distance to the
nearest breaking integer), so the comparison is embedded exactly. -/
def looks_like_valid_cjk (text : PyStr) : Bool :=
  if text = [] then false
  else
    let counts := text.foldl cjkGarbageStep (0, 0)
    decide (0 < counts.1) && decide (counts.2 * 10 ≤ text.length * 3)

/-- The `candidate.count("�")` expression: how many replacement code
points a string contains. -/
def countFFFD (s : PyStr) : Nat :=
  (s.filter (fun cp => decide (cp = 0xFFFD))).length

/-- The first `try` block of `_try_decode_segment`: strict latin-1
encode (its `UnicodeEncodeError` for a code point above `0xFF` is caught
and ends the path), lenient Big5 decode, accepted when the heuristic
passes. -/
def tryLatinPath (clean : PyStr) : Option PyStr :=
  match latin1Encode clean with
  | .ok bytes =>
    if looks_like_valid_cjk (big5DecodeReplace bytes) = true then
      some (big5DecodeReplace bytes)
    else none
  | .error _ => none

/-- The second `try` block of `_try_decode_segment`: cp1252 → Big5, both
lenient, accepted when the heuristic passes. -/
def tryCp1252Path (clean : PyStr) : Option PyStr :=
  if looks_like_valid_cjk (big5DecodeReplace (cp1252EncodeReplace clean)) = true then
    some (big5DecodeReplace (cp1252EncodeReplace clean))
  else none

/-- The `segment.replace` preprocessing of `_try_decode_segment`:
replacement code points carry no recoverable information and are
stripped before decoding is attempted. -/
def cleanSegment (segment : PyStr) : PyStr :=
  segment.filter (fun cp => decide (cp ≠ 0xFFFD))

/-- The single-segment helper `_try_decode_segment`: strip replacement
code points, then try the latin-1 path and the cp1252 path in order,
returning the first candidate accepted by the heuristic. -/
def try_decode_segment (segment : PyStr) : Option PyStr :=
  if segment = [] then none
  else if cleanSegment segment = [] then none
  else
    match tryLatinPath (cleanSegment segment) with
    | some decoded => some decoded
    | none => tryCp1252Path (cleanSegment segment)

/-- Processing of one completed segment inside `_fix_text_segmented`:
a high-byte segment is replaced by its decode when the helper returns a
truthy (non-`None`, non-empty) string, every other segment passes
through unchanged. -/
def processSegment (isHigh : Bool) (seg : PyStr) : PyStr :=
  if isHigh then
    match try_decode_segment seg with
    | some decoded => if decoded = [] then seg else decoded
    | none => seg
  else seg

/-- One iteration of the character loop of `_fix_text_segmented`.  The
state is `(result, segment, is_high_byte_segment)`; on a classification
boundary the completed segment is processed and a new one is started. -/
def segStep (st : List PyStr × PyStr × Bool) (cp : Nat) : List PyStr × PyStr × Bool :=
  if st.2.1 ≠ [] ∧ decide (128 ≤ cp) ≠ st.2.2 then
    (st.1 ++ [processSegment st.2.2 st.2.1], [cp], decide (128 ≤ cp))
  else
    (st.1, st.2.1 ++ [cp], decide (128 ≤ cp))

/-- The post-loop flush of `_fix_text_segmented`: process the final
pending segment, if any. -/
def segFinish (st : List PyStr × PyStr × Bool) : List PyStr :=
  if st.2.1 ≠ [] then st.1 ++ [processSegment st.2.2 st.2.1] else st.1

/-- The segmented strategy `_fix_text_segmented`: run the boundary loop
over the input and join the processed segments. -/
def fix_text_segmented (text : PyStr) : Option PyStr :=
  if text = [] then none
  else some (segFinish (text.foldl segStep ([], [], false))).flatten

/-- Prepend a run of characters of class `h` onto a segment list, merging
with the first segment when it has the same class.  This is the
right-fold step used to describe the segmentation the loop computes. -/
def consRun (h : Bool) (seg : PyStr) : List (Bool × PyStr) → List (Bool × PyStr)
  | (h2, s2) :: rest => if h = h2 then (h, seg ++ s2) :: rest else (h, seg) :: (h2, s2) :: rest
  | [] => [(h, seg)]

/-- The segmentation of a string into maximal runs of uniformly low
(`< 128`) or uniformly high (`≥ 128`) code points, tagged with the class
flag — the partition maintained implicitly by the `_fix_text_segmented`
loop and described by the spec as `split_segments`. -/
def split_segments (text : PyStr) : List (Bool × PyStr) :=
  text.foldr (fun cp acc => consRun (decide (128 ≤ cp)) [cp] acc) []

/-- Segment processing as a function of a tagged segment pair. -/
def procSeg (p : Bool × PyStr) : PyStr := processSegment p.1 p.2

/-- Strategy 1 of `fix_text_encoding`, the body of the first `try` block:
strict latin-1 encode, strict Big5 decode, then the guard
`fixed != text and _looks_like_valid_cjk(fixed)`. -/
def strategy1Attempt (t : PyStr) : Except CodecError (Option PyStr) :=
  match latin1Encode t with
  | .error e => .error e
  | .ok bytes =>
    match big5DecodeStrict bytes with
    | .error e => .error e
    | .ok fixed =>
      .ok (if fixed ≠ t ∧ looks_like_valid_cjk fixed = true then some fixed else none)

/-- Strategy 2 of `fix_text_encoding`, the body of the second `try`
block: lenient cp1252 encode, lenient Big5 decode, then the guard that
additionally requires strictly fewer replacement code points than the
input.  Both lenient codec operations are total, so the body never
raises. -/
def strategy2Attempt (t : PyStr) : Except CodecError (Option PyStr) :=
  .ok
    (if big5DecodeReplace (cp1252EncodeReplace t) ≠ t ∧
        looks_like_valid_cjk (big5DecodeReplace (cp1252EncodeReplace t)) = true ∧
        countFFFD (big5DecodeReplace (cp1252EncodeReplace t)) < countFFFD t then
      some (big5DecodeReplace (cp1252EncodeReplace t))
    else none)

/-- The handler `except (UnicodeEncodeError, UnicodeDecodeError): pass`
around a strategy body: any raised codec error makes the engine fall
through to the next strategy. -/
def catchUnicodeErrors (x : Except CodecError (Option PyStr)) : Option PyStr :=
  match x with
  | .ok r => r
  | .error .unicodeEncodeError => none
  | .error .unicodeDecodeError => none

/-- Strategy 1 with its exception handler. -/
def strategy1 (t : PyStr) : Option PyStr := catchUnicodeErrors (strategy1Attempt t)

/-- Strategy 2 with its exception handler. -/
def strategy2 (t : PyStr) : Option PyStr := catchUnicodeErrors (strategy2Attempt t)

/-- Strategy 3 of `fix_text_encoding`: the segmented fallback with the
truthiness guard `fixed and fixed != text and _looks_like_valid_cjk(fixed)`. -/
def strategy3 (t : PyStr) : Option PyStr :=
  match fix_text_segmented t with
  | none => none
  | some fixed =>
    if fixed ≠ [] ∧ fixed ≠ t ∧ looks_like_valid_cjk fixed = true then some fixed else none

/-- The repair engine `fix_text_encoding`: fast rejects (empty, pure
ASCII, nothing that looks like mojibake), then the three strategies in
order, first accepted candidate wins. -/
def fix_text_encoding (t : PyStr) : Option PyStr :=
  if t = [] then none
  else if t.all (fun cp => decide (cp < 128)) then none
  else if (t.any (fun cp => decide (128 ≤ cp ∧ cp < 256))) = false ∧
      (t.any (fun cp => decide (cp = 0xFFFD))) = false then none
  else
    match strategy1 t with
    | some fixed => some fixed
    | none =>
      match strategy2 t with
      | some fixed => some fixed
      | none => strategy3 t

/-- A handler that catches exactly the two Unicode error classes named in
the source's `except` clauses and re-raises anything else; used to state
that no raised error escapes the engine. -/
def catchOnlyUnicode (x : Except CodecError (Option PyStr)) : Except CodecError (Option PyStr) :=
  match x with
  | .error .unicodeEncodeError => .ok none
  | .error .unicodeDecodeError => .ok none
  | other => other

/-- The engine with exception propagation made explicit: each strategy
body runs under the handler `catchOnlyUnicode`, and an error that the
handlers did not catch would surface as an `Except.error` of the whole
call. -/
def fixTextEncodingE (t : PyStr) : Except CodecError (Option PyStr) :=
  if t = [] then .ok none
  else if t.all (fun cp => decide (cp < 128)) then .ok none
  else if (t.any (fun cp => decide (128 ≤ cp ∧ cp < 256))) = false ∧
      (t.any (fun cp => decide (cp = 0xFFFD))) = false then .ok none
  else
    match catchOnlyUnicode (strategy1Attempt t) with
    | .error e => .error e
    | .ok (some fixed) => .ok (some fixed)
    | .ok none =>
      match catchOnlyUnicode (strategy2Attempt t) with
      | .error e => .error e
      | .ok (some fixed) => .ok (some fixed)
      | .ok none => .ok (strategy3 t)

/-- The corrupted example string `"µL³y¼v¾¯"` from the module docstring. -/
def mojibakeExample : PyStr := [0xB5, 0x4C, 0xB3, 0x79, 0xBC, 0x76, 0xBE, 0xAF]

/-- Its repaired form `"無造影劑"`. -/
def repairedExample : PyStr := [0x7121, 0x9020, 0x5F71, 0x5291]

/-- The mixed-content example `"Rt ANKLE CT (µL³y¼v¾¯)"`. -/
def mixedExample : PyStr :=
  [0x52, 0x74, 0x20, 0x41, 0x4E, 0x4B, 0x4C, 0x45, 0x20, 0x43, 0x54, 0x20, 0x28,
   0xB5, 0x4C, 0xB3, 0x79, 0xBC, 0x76, 0xBE, 0xAF, 0x29]

/-- Its repaired form `"Rt ANKLE CT (無造影劑)"`. -/
def mixedRepaired : PyStr :=
  [0x52, 0x74, 0x20, 0x41, 0x4E, 0x4B, 0x4C, 0x45, 0x20, 0x43, 0x54, 0x20, 0x28,
   0x7121, 0x9020, 0x5F71, 0x5291, 0x29]

/-- The string `"Hello World"`. -/
def helloWorld : PyStr := [0x48, 0x65, 0x6C, 0x6C, 0x6F, 0x20, 0x57, 0x6F, 0x72, 0x6C, 0x64]


/-- Spec-side classification: membership in one of the four tracked CJK
code-point ranges (CJK Unified Ideographs, CJK Extension A, CJK Symbols
and Punctuation, Halfwidth and Fullwidth Forms). -/
def isCjkCodePoint (cp : Nat) : Bool :=
  decide ((0x4E00 ≤ cp ∧ cp ≤ 0x9FFF) ∨ (0x3400 ≤ cp ∧ cp ≤ 0x4DBF) ∨
    (0x3000 ≤ cp ∧ cp ≤ 0x303F) ∨ (0xFF00 ≤ cp ∧ cp ≤ 0xFFEF))

/-- Spec-side classification: a garbage marker is the replacement code
point or a leftover Latin-1 high code point in `128`–`255`. -/
def isGarbageMarker (cp : Nat) : Bool :=
  decide (cp = 0xFFFD ∨ (128 ≤ cp ∧ cp < 256))

/-- Spec-side count of CJK-ideograph-like code points. -/
def specCjkCount (s : PyStr) : Nat := (s.filter isCjkCodePoint).length

/-- Spec-side count of garbage markers. -/
def specGarbageCount (s : PyStr) : Nat := (s.filter isGarbageMarker).length

theorem cjkGarbageStep_eq (acc : Nat × Nat) (cp : Nat) :
    cjkGarbageStep acc cp =
      (acc.1 + (if isCjkCodePoint cp then 1 else 0),
       acc.2 + (if isGarbageMarker cp then 1 else 0)) := by
  have h1 : isCjkCodePoint cp = true ∨ isCjkCodePoint cp = false := by
    cases isCjkCodePoint cp <;> simp
  have h2 : isGarbageMarker cp = true ∨ isGarbageMarker cp = false := by
    cases isGarbageMarker cp <;> simp
  rcases h1 with h1 | h1 <;> rcases h2 with h2 | h2 <;>
    simp only [h1, h2, if_true, if_false] <;>
    simp only [isCjkCodePoint, decide_eq_true_eq, decide_eq_false_iff_not] at h1 <;>
    simp only [isGarbageMarker, decide_eq_true_eq, decide_eq_false_iff_not] at h2 <;>
    unfold cjkGarbageStep <;> split_ifs <;> simp_all <;> omega

theorem cjkGarbage_foldl (s : PyStr) :
    ∀ a b : Nat, s.foldl cjkGarbageStep (a, b) =
      (a + specCjkCount s, b + specGarbageCount s) := by
  induction s with
  | nil => intro a b; simp [specCjkCount, specGarbageCount]
  | cons cp rest ih =>
    intro a b
    rw [List.foldl_cons, cjkGarbageStep_eq]
    rw [ih]
    simp only [specCjkCount, specGarbageCount, List.filter_cons]
    split_ifs <;> simp <;> omega

/-- Characterisation of the validity heuristic with the exact rational
threshold written over natural numbers. -/
theorem looks_like_valid_cjk_iff (s : PyStr) :
    looks_like_valid_cjk s = true ↔
      s ≠ [] ∧ 0 < specCjkCount s ∧ specGarbageCount s * 10 ≤ s.length * 3 := by
  unfold looks_like_valid_cjk
  split_ifs with h
  · simp [h]
  · rw [cjkGarbage_foldl s 0 0]
    simp [h]

/-- A string accepted by the heuristic contains a code point in one of
the four CJK ranges. -/
theorem valid_has_cjk {s : PyStr} (h : looks_like_valid_cjk s = true) :
    ∃ cp ∈ s, isCjkCodePoint cp = true := by
  have h2 := (looks_like_valid_cjk_iff s).mp h
  have hpos : 0 < (s.filter isCjkCodePoint).length := h2.2.1
  have hne : s.filter isCjkCodePoint ≠ [] := by
    intro hnil
    rw [hnil] at hpos
    simp at hpos
  rcases List.exists_mem_of_ne_nil _ hne with ⟨cp, hmem⟩
  rcases List.mem_filter.mp hmem with ⟨hin, hp⟩
  exact ⟨cp, hin, hp⟩

/-- A string accepted by the heuristic is nonempty. -/
theorem valid_ne_nil {s : PyStr} (h : looks_like_valid_cjk s = true) : s ≠ [] :=
  ((looks_like_valid_cjk_iff s).mp h).1

/-- A CJK code point is at least `0x3000`, so it is neither a single
byte nor the replacement code point. -/
theorem cjk_not_single (cp : Nat) (h : isCjkCodePoint cp = true) :
    ¬ (cp < 0x80 ∨ cp = 0xFFFD) := by
  unfold isCjkCodePoint at h
  have := of_decide_eq_true h
  omega

/-- The lenient Big5 decoder never produces more code points than it
consumes bytes. -/
theorem big5DecodeReplace_length_le :
    ∀ bytes : List Nat, (big5DecodeReplace bytes).length ≤ bytes.length
  | [] => by simp [big5DecodeReplace]
  | [b] => by unfold big5DecodeReplace; split <;> simp
  | b :: t :: rest => by
    have ih1 := big5DecodeReplace_length_le (t :: rest)
    have ih2 := big5DecodeReplace_length_le rest
    unfold big5DecodeReplace
    split
    · simp only [List.length_cons]
      simpa using Nat.succ_le_succ ih1
    · split
      · simp only [List.length_cons]
        simp at ih2 ⊢
        omega
      · simp only [List.length_cons]
        simp at ih1 ⊢
        omega

/-- If the lenient Big5 decoder produced a code point in a CJK range
then it consumed at least one two-byte pair, so its output is strictly
shorter than its input. -/
theorem big5DecodeReplace_lt_of_cjk :
    ∀ bytes : List Nat,
      (∃ cp ∈ big5DecodeReplace bytes, isCjkCodePoint cp = true) →
      (big5DecodeReplace bytes).length < bytes.length
  | [] => by simp [big5DecodeReplace]
  | [b] => by
    unfold big5DecodeReplace
    split
    · rintro ⟨cp, hm, hc⟩
      simp at hm
      subst hm
      exact absurd (Or.inl (by omega)) (cjk_not_single _ hc)
    · rintro ⟨cp, hm, hc⟩
      simp at hm
      subst hm
      exact absurd (Or.inr rfl) (cjk_not_single _ hc)
  | b :: t :: rest => by
    have ih1 := big5DecodeReplace_lt_of_cjk (t :: rest)
    have le2 := big5DecodeReplace_length_le rest
    unfold big5DecodeReplace
    split
    next hb =>
      rintro ⟨cp, hm, hc⟩
      rcases List.mem_cons.mp hm with hm | hm
      · subst hm
        exact absurd (Or.inl hb) (cjk_not_single _ hc)
      · have := ih1 ⟨cp, hm, hc⟩
        simp only [List.length_cons] at this ⊢
        omega
    next =>
      split
      · intro _
        simp only [List.length_cons]
        omega
      · rintro ⟨cp, hm, hc⟩
        rcases List.mem_cons.mp hm with hm | hm
        · subst hm
          exact absurd (Or.inr rfl) (cjk_not_single _ hc)
        · have := ih1 ⟨cp, hm, hc⟩
          simp only [List.length_cons] at this ⊢
          omega

/-- The strict Big5 decoder never produces more code points than it
consumes bytes. -/
theorem big5DecodeStrict_length_le :
    ∀ (bytes : List Nat) (out : PyStr), big5DecodeStrict bytes = .ok out →
      out.length ≤ bytes.length
  | [], out => by
    intro h
    simp [big5DecodeStrict] at h
    simp [← h]
  | [b], out => by
    unfold big5DecodeStrict
    split
    · intro h
      simp at h
      simp [← h]
    · intro h
      simp at h
  | b :: t :: rest, out => by
    unfold big5DecodeStrict
    split
    · cases heq : big5DecodeStrict (t :: rest) with
      | ok out2 =>
        have ih := big5DecodeStrict_length_le (t :: rest) out2 heq
        intro h
        simp [heq] at h
        subst h
        simp only [List.length_cons] at ih ⊢
        omega
      | error e =>
        intro h
        simp [heq] at h
    · split
      · cases heq : big5DecodeStrict rest with
        | ok out2 =>
          have ih := big5DecodeStrict_length_le rest out2 heq
          intro h
          simp [heq] at h
          subst h
          simp only [List.length_cons]
          omega
        | error e =>
          intro h
          simp [heq] at h
      · intro h
        simp at h

/-- If the strict Big5 decoder produced a code point in a CJK range then
its output is strictly shorter than its input. -/
theorem big5DecodeStrict_lt_of_cjk :
    ∀ (bytes : List Nat) (out : PyStr), big5DecodeStrict bytes = .ok out →
      (∃ cp ∈ out, isCjkCodePoint cp = true) → out.length < bytes.length
  | [], out => by
    intro h
    simp [big5DecodeStrict] at h
    subst h
    simp
  | [b], out => by
    unfold big5DecodeStrict
    split
    next hb =>
      intro h
      simp at h
      subst h
      rintro ⟨cp, hm, hc⟩
      simp at hm
      subst hm
      exact absurd (Or.inl hb) (cjk_not_single _ hc)
    next =>
      intro h
      simp at h
  | b :: t :: rest, out => by
    unfold big5DecodeStrict
    split
    next hb =>
      cases heq : big5DecodeStrict (t :: rest) with
      | ok out2 =>
        intro h
        simp [heq] at h
        subst h
        rintro ⟨cp, hm, hc⟩
        rcases List.mem_cons.mp hm with hm | hm
        · subst hm
          exact absurd (Or.inl hb) (cjk_not_single _ hc)
        · have := big5DecodeStrict_lt_of_cjk (t :: rest) out2 heq ⟨cp, hm, hc⟩
          simp only [List.length_cons] at this ⊢
          omega
      | error e =>
        intro h
        simp [heq] at h
    next =>
      split
      · cases heq : big5DecodeStrict rest with
        | ok out2 =>
          intro h
          simp [heq] at h
          subst h
          intro _
          have := big5DecodeStrict_length_le rest out2 heq
          simp only [List.length_cons]
          omega
        | error e =>
          intro h
          simp [heq] at h
      · intro h
        simp at h

/-- Strict latin-1 encoding succeeds exactly by returning the code
points themselves as bytes. -/
theorem latin1Encode_ok {s bytes : PyStr} (h : latin1Encode s = .ok bytes) : bytes = s := by
  unfold latin1Encode at h
  split at h
  · simpa using h.symm
  · simp at h

/-- Lenient cp1252 encoding emits exactly one byte per code point. -/
theorem cp1252EncodeReplace_length (s : PyStr) :
    (cp1252EncodeReplace s).length = s.length := by
  simp [cp1252EncodeReplace]

/-- A successful latin-1 path returns the lenient decode of the cleaned
segment itself and that decode passed the heuristic. -/
theorem tryLatinPath_some {clean d : PyStr} (h : tryLatinPath clean = some d) :
    d = big5DecodeReplace clean ∧ looks_like_valid_cjk d = true := by
  unfold tryLatinPath at h
  cases heq : latin1Encode clean with
  | ok bytes =>
    rw [heq] at h
    have h2 : (if looks_like_valid_cjk (big5DecodeReplace bytes) = true then
        some (big5DecodeReplace bytes) else none) = some d := h
    by_cases hv : looks_like_valid_cjk (big5DecodeReplace bytes) = true
    · rw [if_pos hv] at h2
      have hd := Option.some.inj h2
      rw [latin1Encode_ok heq] at hd hv
      exact ⟨hd.symm, hd ▸ hv⟩
    · rw [if_neg hv] at h2
      cases h2
  | error e =>
    rw [heq] at h
    cases h

/-- A successful cp1252 path returns the lenient decode of the cp1252
bytes of the cleaned segment and that decode passed the heuristic. -/
theorem tryCp1252Path_some {clean d : PyStr} (h : tryCp1252Path clean = some d) :
    d = big5DecodeReplace (cp1252EncodeReplace clean) ∧ looks_like_valid_cjk d = true := by
  unfold tryCp1252Path at h
  by_cases hv : looks_like_valid_cjk (big5DecodeReplace (cp1252EncodeReplace clean)) = true
  · rw [if_pos hv] at h
    have hd := Option.some.inj h
    exact ⟨hd.symm, hd ▸ hv⟩
  · rw [if_neg hv] at h
    cases h

/-- A successful single-segment repair passed the heuristic. -/
theorem try_decode_segment_valid {seg d : PyStr} (h : try_decode_segment seg = some d) :
    looks_like_valid_cjk d = true := by
  unfold try_decode_segment at h
  split at h
  · cases h
  · split at h
    · cases h
    · cases heq : tryLatinPath (cleanSegment seg) with
      | some d2 =>
        rw [heq] at h
        cases h
        exact (tryLatinPath_some heq).2
      | none =>
        rw [heq] at h
        exact (tryCp1252Path_some h).2

/-- A successful single-segment repair is strictly shorter than the
segment it replaces: the heuristic forces a CJK code point, which the
decoder can only produce from a two-byte pair. -/
theorem try_decode_segment_lt {seg d : PyStr} (h : try_decode_segment seg = some d) :
    d.length < seg.length := by
  unfold try_decode_segment at h
  split at h
  · cases h
  · split at h
    · cases h
    · have hcl : (cleanSegment seg).length ≤ seg.length := List.length_filter_le _ _
      cases heq : tryLatinPath (cleanSegment seg) with
      | some d2 =>
        rw [heq] at h
        cases h
        rcases tryLatinPath_some heq with ⟨hd, hv⟩
        subst hd
        have := big5DecodeReplace_lt_of_cjk _ (valid_has_cjk hv)
        omega
      | none =>
        rw [heq] at h
        rcases tryCp1252Path_some h with ⟨hd, hv⟩
        subst hd
        have := big5DecodeReplace_lt_of_cjk _ (valid_has_cjk hv)
        rw [cp1252EncodeReplace_length] at this
        omega

/-- Processing a segment never lengthens it. -/
theorem processSegment_length_le (hi : Bool) (seg : PyStr) :
    (processSegment hi seg).length ≤ seg.length := by
  unfold processSegment
  split
  · cases heq : try_decode_segment seg with
    | some d =>
      show List.length (if d = [] then seg else d) ≤ List.length seg
      split
      · exact Nat.le_refl _
      · exact Nat.le_of_lt (try_decode_segment_lt heq)
    | none =>
      exact Nat.le_refl _
  · exact Nat.le_refl _

/-- A segment that processing actually changed became strictly shorter. -/
theorem processSegment_lt_of_ne (hi : Bool) (seg : PyStr)
    (h : processSegment hi seg ≠ seg) : (processSegment hi seg).length < seg.length := by
  unfold processSegment at h ⊢
  by_cases hhi : hi = true
  · rw [if_pos hhi] at h ⊢
    cases heq : try_decode_segment seg with
    | some d =>
      have h2 : (if d = [] then seg else d) ≠ seg := by
        intro he
        apply h
        rw [heq]
        exact he
      show List.length (if d = [] then seg else d) < List.length seg
      by_cases hd : d = []
      · rw [if_pos hd] at h2
        exact absurd rfl h2
      · rw [if_neg hd]
        exact try_decode_segment_lt heq
    | none =>
      have h2 : seg ≠ seg := by
        intro he
        apply h
        rw [heq]
      exact absurd rfl h2
  · rw [if_neg hhi] at h
    exact absurd rfl h

theorem consRun_head (h : Bool) (seg : PyStr) (segs : List (Bool × PyStr)) :
    ∃ s2 rest, consRun h seg segs = (h, s2) :: rest := by
  cases segs with
  | nil => exact ⟨seg, [], rfl⟩
  | cons p rest =>
    rcases p with ⟨h2, s2⟩
    by_cases he : h = h2
    · refine ⟨seg ++ s2, rest, ?_⟩
      simp [consRun, he]
    · refine ⟨seg, (h2, s2) :: rest, ?_⟩
      simp [consRun, he]

theorem consRun_merge (h : Bool) (seg1 seg2 : PyStr) (segs : List (Bool × PyStr)) :
    consRun h seg1 (consRun h seg2 segs) = consRun h (seg1 ++ seg2) segs := by
  cases segs with
  | nil => simp [consRun]
  | cons p rest =>
    rcases p with ⟨h2, s2⟩
    by_cases he : h = h2 <;> simp [consRun, he]

theorem consRun_snd_flatten (h : Bool) (seg : PyStr) (segs : List (Bool × PyStr)) :
    ((consRun h seg segs).map Prod.snd).flatten = seg ++ (segs.map Prod.snd).flatten := by
  cases segs with
  | nil => simp [consRun]
  | cons p rest =>
    rcases p with ⟨h2, s2⟩
    by_cases he : h = h2 <;> simp [consRun, he]

theorem split_segments_cons (cp : Nat) (l : PyStr) :
    split_segments (cp :: l) = consRun (decide (128 ≤ cp)) [cp] (split_segments l) := rfl

/-- Concatenating the segment texts reconstructs the input exactly. -/
theorem split_segments_flatten (t : PyStr) :
    ((split_segments t).map Prod.snd).flatten = t := by
  induction t with
  | nil => rfl
  | cons cp l ih =>
    rw [split_segments_cons, consRun_snd_flatten, ih]
    rfl

/-- The inner loop of `_fix_text_segmented`, started with a nonempty
pending segment, produces exactly the processed segments of the pending
segment merged onto the segmentation of the remaining input. -/
theorem segLoop_eq (l : List Nat) :
    ∀ (res : List PyStr) (seg : PyStr) (h : Bool), seg ≠ [] →
      segFinish (l.foldl segStep (res, seg, h)) =
        res ++ (consRun h seg (split_segments l)).map procSeg := by
  induction l with
  | nil =>
    intro res seg h hne
    show segFinish (res, seg, h) = _
    simp [segFinish, hne, split_segments, consRun, procSeg]
  | cons cp l ih =>
    intro res seg h hne
    rw [List.foldl_cons]
    by_cases hc : decide (128 ≤ cp) = h
    · have hstep : segStep (res, seg, h) cp = (res, seg ++ [cp], h) := by
        simp [segStep, hc]
      rw [hstep, ih res (seg ++ [cp]) h (by simp), split_segments_cons, hc, consRun_merge]
    · have hstep : segStep (res, seg, h) cp =
          (res ++ [processSegment h seg], [cp], decide (128 ≤ cp)) := by
        simp [segStep, hne, hc]
      rw [hstep, ih (res ++ [processSegment h seg]) [cp] (decide (128 ≤ cp)) (by simp),
        split_segments_cons]
      rcases consRun_head (decide (128 ≤ cp)) [cp] (split_segments l) with ⟨s2, rest, hcr⟩
      rw [hcr]
      have hne2 : ¬ h = decide (128 ≤ cp) := fun he => hc he.symm
      simp [consRun, hne2, procSeg]

/-- The segmented strategy equals segment-wise processing of the
segmentation: every unchanged (in particular every low-byte) segment
appears verbatim in its original position. -/
theorem fix_text_segmented_eq (t : PyStr) (hne : t ≠ []) :
    fix_text_segmented t = some ((split_segments t).map procSeg).flatten := by
  unfold fix_text_segmented
  rw [if_neg hne]
  cases t with
  | nil => exact absurd rfl hne
  | cons cp l =>
    have hstep : segStep ([], [], false) cp = ([], [cp], decide (128 ≤ cp)) := by
      simp [segStep]
    rw [List.foldl_cons, hstep, segLoop_eq l [] [cp] (decide (128 ≤ cp)) (by simp),
      split_segments_cons]
    simp

theorem procSeg_flatten_le (L : List (Bool × PyStr)) :
    ((L.map procSeg).flatten).length ≤ ((L.map Prod.snd).flatten).length := by
  induction L with
  | nil => simp
  | cons p L ih =>
    simp only [List.map_cons, List.flatten_cons, List.length_append]
    have hp : (procSeg p).length ≤ p.2.length := processSegment_length_le p.1 p.2
    omega

theorem procSeg_flatten_lt (L : List (Bool × PyStr))
    (h : (L.map procSeg).flatten ≠ (L.map Prod.snd).flatten) :
    ((L.map procSeg).flatten).length < ((L.map Prod.snd).flatten).length := by
  induction L with
  | nil => exact absurd rfl h
  | cons p L ih =>
    simp only [List.map_cons, List.flatten_cons, List.length_append] at h ⊢
    by_cases hp : procSeg p = p.2
    · rw [hp] at h ⊢
      have htail : (L.map procSeg).flatten ≠ (L.map Prod.snd).flatten := by
        intro he
        exact h (by rw [he])
      have := ih htail
      omega
    · have hlt := processSegment_lt_of_ne p.1 p.2 hp
      have hle := procSeg_flatten_le L
      have : (procSeg p).length < p.2.length := hlt
      omega

/-- An accepted first-strategy candidate differs from the input, passed
the heuristic, and is strictly shorter than the input. -/
theorem strategy1_some {t u : PyStr} (h : strategy1 t = some u) :
    u ≠ t ∧ looks_like_valid_cjk u = true ∧ u.length < t.length := by
  cases heq : latin1Encode t with
  | error e =>
    have hA : strategy1 t = none := by
      unfold strategy1 strategy1Attempt catchUnicodeErrors
      simp only [heq]
      cases e <;> rfl
    rw [hA] at h
    cases h
  | ok bytes =>
    cases hd : big5DecodeStrict bytes with
    | error e =>
      have hA : strategy1 t = none := by
        unfold strategy1 strategy1Attempt catchUnicodeErrors
        simp only [heq, hd]
        cases e <;> rfl
      rw [hA] at h
      cases h
    | ok fixed =>
      have hA : strategy1 t =
          (if fixed ≠ t ∧ looks_like_valid_cjk fixed = true then some fixed else none) := by
        unfold strategy1 strategy1Attempt catchUnicodeErrors
        simp only [heq, hd]
      rw [hA] at h
      split at h
      next hg =>
        have hu := Option.some.inj h
        subst hu
        refine ⟨hg.1, hg.2, ?_⟩
        have hb := latin1Encode_ok heq
        have hlt := big5DecodeStrict_lt_of_cjk bytes fixed hd (valid_has_cjk hg.2)
        rw [hb] at hlt
        exact hlt
      next =>
        cases h

/-- An accepted second-strategy candidate differs from the input, passed
the heuristic, has strictly fewer replacement code points than the
input, and is strictly shorter than the input. -/
theorem strategy2_some {t u : PyStr} (h : strategy2 t = some u) :
    u ≠ t ∧ looks_like_valid_cjk u = true ∧ countFFFD u < countFFFD t ∧
      u.length < t.length := by
  have hA : strategy2 t =
      (if big5DecodeReplace (cp1252EncodeReplace t) ≠ t ∧
          looks_like_valid_cjk (big5DecodeReplace (cp1252EncodeReplace t)) = true ∧
          countFFFD (big5DecodeReplace (cp1252EncodeReplace t)) < countFFFD t then
        some (big5DecodeReplace (cp1252EncodeReplace t))
      else none) := rfl
  rw [hA] at h
  split at h
  next hg =>
    have hu := Option.some.inj h
    subst hu
    refine ⟨hg.1, hg.2.1, hg.2.2, ?_⟩
    have hlt := big5DecodeReplace_lt_of_cjk _ (valid_has_cjk hg.2.1)
    rw [cp1252EncodeReplace_length] at hlt
    exact hlt
  next =>
    cases h

/-- An accepted segmented-strategy candidate differs from the input,
passed the heuristic, and is strictly shorter than the input. -/
theorem strategy3_some {t u : PyStr} (h : strategy3 t = some u) :
    u ≠ t ∧ looks_like_valid_cjk u = true ∧ u.length < t.length := by
  unfold strategy3 at h
  cases hs : fix_text_segmented t with
  | none =>
    rw [hs] at h
    cases h
  | some fixed =>
    rw [hs] at h
    have h2 : (if fixed ≠ [] ∧ fixed ≠ t ∧ looks_like_valid_cjk fixed = true then
        some fixed else none) = some u := h
    split at h2
    next hg =>
      have hu := Option.some.inj h2
      subst hu
      refine ⟨hg.2.1, hg.2.2, ?_⟩
      have hne : t ≠ [] := by
        intro he
        subst he
        unfold fix_text_segmented at hs
        simp at hs
      have hchar := fix_text_segmented_eq t hne
      rw [hs] at hchar
      have hfix : fixed = ((split_segments t).map procSeg).flatten := Option.some.inj hchar
      have hsnd := split_segments_flatten t
      have hlt : (((split_segments t).map procSeg).flatten).length <
          (((split_segments t).map Prod.snd).flatten).length := by
        apply procSeg_flatten_lt
        rw [hsnd, ← hfix]
        exact hg.2.1
      rw [← hfix, hsnd] at hlt
      exact hlt
    next =>
      cases h2

/-- The engine only returns a candidate accepted by one of the three
strategies, tried in order. -/
theorem fix_text_encoding_some {t u : PyStr} (h : fix_text_encoding t = some u) :
    strategy1 t = some u ∨ strategy2 t = some u ∨ strategy3 t = some u := by
  unfold fix_text_encoding at h
  split at h
  · cases h
  · split at h
    · cases h
    · split at h
      · cases h
      · cases h1 : strategy1 t with
        | some f =>
          simp only [h1] at h
          exact Or.inl h
        | none =>
          simp only [h1] at h
          cases h2 : strategy2 t with
          | some f =>
            simp only [h2] at h
            exact Or.inr (Or.inl h)
          | none =>
            simp only [h2] at h
            exact Or.inr (Or.inr h)

/-- Every successful repair strictly shortens the string: each strategy
accepts only candidates the heuristic validates, and a validated
candidate contains a CJK code point that the decoders can only produce
by consuming a two-byte pair. -/
theorem fix_text_encoding_shrinks {t u : PyStr} (h : fix_text_encoding t = some u) :
    u.length < t.length := by
  rcases fix_text_encoding_some h with h1 | h2 | h3
  · exact (strategy1_some h1).2.2
  · exact (strategy2_some h2).2.2.2
  · exact (strategy3_some h3).2.2

/-- Every successful repair differs from the input and passed the
heuristic. -/
theorem fix_text_encoding_valid {t u : PyStr} (h : fix_text_encoding t = some u) :
    u ≠ t ∧ looks_like_valid_cjk u = true := by
  rcases fix_text_encoding_some h with h1 | h2 | h3
  · exact ⟨(strategy1_some h1).1, (strategy1_some h1).2.1⟩
  · exact ⟨(strategy2_some h2).1, (strategy2_some h2).2.1⟩
  · exact ⟨(strategy3_some h3).1, (strategy3_some h3).2.1⟩

/-- The natural-number threshold comparison of the heuristic coincides
with the rational comparison against `0.3` times the length. -/
theorem garbage_threshold_iff (g n : Nat) :
    g * 10 ≤ n * 3 ↔ (g : ℚ) ≤ 0.3 * n := by
  rw [show (0.3 : ℚ) = 3 / 10 by norm_num]
  constructor
  · intro hgn
    have hq : (g : ℚ) * 10 ≤ (n : ℚ) * 3 := by exact_mod_cast hgn
    linarith
  · intro hq
    have hq2 : (g : ℚ) * 10 ≤ (n : ℚ) * 3 := by linarith
    exact_mod_cast hq2

/-- An input with a concrete replacement code point on which the second
strategy succeeds. -/
def strategy2Example : PyStr := [0xB5, 0x4C, 0xB3, 0x79, 0xBC, 0x76, 0xBE, 0xAF, 0xFFFD]

/-- The candidate the second strategy accepts for `strategy2Example`:
the repaired ideographs followed by the question mark the replacement
code point was encoded to. -/
def strategy2Repaired : PyStr := [0x7121, 0x9020, 0x5F71, 0x5291, 0x3F]

/-- C1: the repair engine maps the documented example inputs to the
documented outputs: `repair("µL³y¼v¾¯") = "無造影劑"` and
`repair("Rt ANKLE CT (µL³y¼v¾¯)") = "Rt ANKLE CT (無造影劑)"`, with the
ASCII segments preserved verbatim. -/
theorem C1_round_trip_examples :
    fix_text_encoding mojibakeExample = some repairedExample ∧
    fix_text_encoding mixedExample = some mixedRepaired :=
  ⟨by decide, by decide⟩

/-- C2: a non-`None` repair result always differs from the input,
satisfies the CJK-validity heuristic, and is therefore nonempty and
contains at least one code point in the four tracked CJK ranges. -/
theorem C2_result_invariants (t u : PyStr) (h : fix_text_encoding t = some u) :
    u ≠ t ∧ looks_like_valid_cjk u = true ∧ u ≠ [] ∧
      ∃ cp ∈ u, isCjkCodePoint cp = true := by
  rcases fix_text_encoding_valid h with ⟨h1, h2⟩
  exact ⟨h1, h2, valid_ne_nil h2, valid_has_cjk h2⟩

theorem C2_witness :
    fix_text_encoding mojibakeExample = some repairedExample ∧
    (repairedExample ≠ mojibakeExample ∧
      looks_like_valid_cjk repairedExample = true ∧ repairedExample ≠ [] ∧
      ∃ cp ∈ repairedExample, isCjkCodePoint cp = true) :=
  ⟨by decide, C2_result_invariants mojibakeExample repairedExample (by decide)⟩

/-- C3: the validity heuristic rejects the empty string, and otherwise
accepts exactly when the count of code points in the four CJK ranges is
positive and the count of garbage markers (replacement code point or a
code point in `128`–`255`) is at most `0.3` times the total code-point
count, all other code points counting toward neither tally. -/
theorem C3_heuristic_characterisation :
    looks_like_valid_cjk [] = false ∧
    ∀ s : PyStr, looks_like_valid_cjk s = true ↔
      (0 < specCjkCount s ∧ (specGarbageCount s : ℚ) ≤ 0.3 * s.length) := by
  refine ⟨rfl, ?_⟩
  intro s
  by_cases hse : s = []
  · subst hse
    simp [looks_like_valid_cjk, specCjkCount]
  · rw [looks_like_valid_cjk_iff]
    rw [← garbage_threshold_iff]
    simp [hse]

/-- C4: the engine returns `None` for every empty input, every pure
ASCII input, and every input with neither a code point in `128`–`255`
nor a replacement code point; in particular for `""` and
`"Hello World"`. -/
theorem C4_fast_rejects :
    (∀ t : PyStr,
      t = [] ∨ (t.all (fun cp => decide (cp < 128))) = true ∨
        ((t.any (fun cp => decide (128 ≤ cp ∧ cp < 256))) = false ∧
          (t.any (fun cp => decide (cp = 0xFFFD))) = false) →
      fix_text_encoding t = none) ∧
    fix_text_encoding [] = none ∧ fix_text_encoding helloWorld = none := by
  refine ⟨?_, rfl, by decide⟩
  intro t ht
  unfold fix_text_encoding
  split_ifs with g1 g2 g3
  · rfl
  · rfl
  · rfl
  · exfalso
    rcases ht with ht | ht | ht
    · exact g1 ht
    · exact g2 ht
    · exact g3 ht

theorem C4_witness : fix_text_encoding helloWorld = none :=
  C4_fast_rejects.1 helloWorld (Or.inr (Or.inl (by decide)))

/-- C5 as stated is false: a code point with no Windows-1252 mapping is
substituted with the byte `0x3F` (the ASCII question mark), not with the
replacement code point `U+FFFD`, as witnessed at the unmappable code
point `0x7121`. -/
theorem C5_counterexample :
    cp1252EncodeChar 0x7121 = none ∧ cp1252EncodeReplace [0x7121] = [0x3F] ∧
      cp1252EncodeReplace [0x7121] ≠ [0xFFFD] := by
  refine ⟨rfl, rfl, by decide⟩

/-- C5 (amended): in the Windows-1252 round-trip, every input code point
with no Windows-1252 mapping is substituted in place with the question
mark byte `0x3F` in the byte reinterpretation, rather than aborting the
strategy. -/
theorem C5_amended (s1 s2 : PyStr) (cp : Nat) (h : cp1252EncodeChar cp = none) :
    cp1252EncodeReplace (s1 ++ cp :: s2) =
      cp1252EncodeReplace s1 ++ 0x3F :: cp1252EncodeReplace s2 := by
  unfold cp1252EncodeReplace
  rw [List.map_append, List.map_cons, h]
  rfl

theorem C5_witness :
    cp1252EncodeChar 0x7121 = none ∧
    cp1252EncodeReplace ([0x41] ++ 0x7121 :: [0x42]) =
      cp1252EncodeReplace [0x41] ++ 0x3F :: cp1252EncodeReplace [0x42] :=
  ⟨rfl, C5_amended [0x41] [0x42] 0x7121 rfl⟩

/-- C6: the whole-string Windows-1252 strategy accepts only candidates
that differ from the input, pass the heuristic, and strictly reduce the
replacement-code-point count; consequently on an input with zero
replacement code points it returns nothing, and any repair of such an
input comes from strategy 1 or strategy 3. -/
theorem C6_strategy2_guard :
    (∀ t r : PyStr, strategy2 t = some r →
      r ≠ t ∧ looks_like_valid_cjk r = true ∧ countFFFD r < countFFFD t) ∧
    (∀ t : PyStr, countFFFD t = 0 → strategy2 t = none) ∧
    (∀ t u : PyStr, countFFFD t = 0 → fix_text_encoding t = some u →
      strategy1 t = some u ∨ strategy3 t = some u) := by
  have hnone : ∀ t : PyStr, countFFFD t = 0 → strategy2 t = none := by
    intro t h0
    cases hs : strategy2 t with
    | none => rfl
    | some r =>
      have := (strategy2_some hs).2.2.1
      omega
  refine ⟨?_, hnone, ?_⟩
  · intro t r h
    exact ⟨(strategy2_some h).1, (strategy2_some h).2.1, (strategy2_some h).2.2.1⟩
  · intro t u h0 hfix
    rcases fix_text_encoding_some hfix with h1 | h2 | h3
    · exact Or.inl h1
    · rw [hnone t h0] at h2
      cases h2
    · exact Or.inr h3

theorem C6_witness :
    (strategy2 strategy2Example = some strategy2Repaired ∧
      (strategy2Repaired ≠ strategy2Example ∧
        looks_like_valid_cjk strategy2Repaired = true ∧
        countFFFD strategy2Repaired < countFFFD strategy2Example)) ∧
    (countFFFD mojibakeExample = 0 ∧ strategy2 mojibakeExample = none) ∧
    (strategy1 mojibakeExample = some repairedExample ∨
      strategy3 mojibakeExample = some repairedExample) :=
  ⟨⟨by decide, C6_strategy2_guard.1 strategy2Example strategy2Repaired (by decide)⟩,
   ⟨by decide, C6_strategy2_guard.2.1 mojibakeExample (by decide)⟩,
   C6_strategy2_guard.2.2 mojibakeExample repairedExample (by decide) (by decide)⟩

/-- C7: the segments computed by the segmented strategy partition the
input exactly — concatenating the segment texts reproduces the input —
low-byte segments are processed to themselves so they appear verbatim in
position, and when every high-byte segment's single-segment repair fails
the segmented result equals the input exactly. -/
theorem C7_segmentation (t : PyStr) :
    ((split_segments t).map Prod.snd).flatten = t ∧
    (∀ p ∈ split_segments t, p.1 = false → procSeg p = p.2) ∧
    (t ≠ [] → fix_text_segmented t = some ((split_segments t).map procSeg).flatten) ∧
    ((∀ p ∈ split_segments t, p.1 = true → try_decode_segment p.2 = none) → t ≠ [] →
      fix_text_segmented t = some t) := by
  refine ⟨split_segments_flatten t, ?_, fun h => fix_text_segmented_eq t h, ?_⟩
  · intro p hp hlow
    unfold procSeg processSegment
    rw [hlow]
    rfl
  · intro hall hne
    rw [fix_text_segmented_eq t hne]
    have hmap : (split_segments t).map procSeg = (split_segments t).map Prod.snd := by
      apply List.map_congr_left
      intro p hp
      cases hp1 : p.1 with
      | true =>
        unfold procSeg processSegment
        rw [hp1, if_pos rfl, hall p hp hp1]
      | false =>
        unfold procSeg processSegment
        rw [hp1]
        rfl
    rw [hmap, split_segments_flatten]

theorem C7_witness : fix_text_segmented [0x41, 0xB5] = some [0x41, 0xB5] :=
  (C7_segmentation [0x41, 0xB5]).2.2.2 (by decide) (by decide)

/-- C8: idempotence on success, in the guaranteed form — a successful
repair never maps back: if `repair(t) = Some(u)` then `repair(u)` is
`None` or at least never `Some(t)`, because every accepted candidate is
strictly shorter than its input. -/
theorem C8_no_two_cycle (t u : PyStr) (h : fix_text_encoding t = some u) :
    fix_text_encoding u = none ∨ fix_text_encoding u ≠ some t := by
  refine Or.inr ?_
  intro hback
  have h1 := fix_text_encoding_shrinks h
  have h2 := fix_text_encoding_shrinks hback
  omega

theorem C8_witness :
    fix_text_encoding mojibakeExample = some repairedExample ∧
    (fix_text_encoding repairedExample = none ∨
      fix_text_encoding repairedExample ≠ some mojibakeExample) :=
  ⟨by decide, C8_no_two_cycle mojibakeExample repairedExample (by decide)⟩

/-- C9: the engine never lets a codec error escape — with exception
propagation made explicit, the call always returns normally with exactly
the result of the plain engine, every raised `UnicodeEncodeError` or
`UnicodeDecodeError` having been absorbed by a strategy-local handler. -/
theorem C9_no_exception_escapes (t : PyStr) :
    fixTextEncodingE t = Except.ok (fix_text_encoding t) := by
  have hco : ∀ x : Except CodecError (Option PyStr),
      catchOnlyUnicode x = .ok (catchUnicodeErrors x) := by
    intro x
    cases x with
    | ok r => rfl
    | error e => cases e <;> rfl
  unfold fixTextEncodingE fix_text_encoding strategy1 strategy2
  split_ifs
  · rfl
  · rfl
  · rfl
  · rw [hco (strategy1Attempt t)]
    cases h1 : catchUnicodeErrors (strategy1Attempt t) with
    | some f => rfl
    | none =>
      rw [hco (strategy2Attempt t)]
      cases h2 : catchUnicodeErrors (strategy2Attempt t) with
      | some f => rfl
      | none => rfl

/-- C10: the Windows-1252 round-trip of strategy 2 is total — lenient
cp1252 encoding and lenient Big5 decoding always succeed, so the
strategy body always returns a candidate decision and its exception
handler is unreachable. -/
theorem C10_strategy2_total (t : PyStr) :
    ∃ candidate : Option PyStr, strategy2Attempt t = Except.ok candidate ∧
      strategy2 t = candidate :=
  ⟨_, rfl, rfl⟩
